import Mathlib

/-!
Verification development for the browser-local key-value persistence layer
(`IndexedDBService`) of the FUXA front-end.

The service is embedded shallowly:

* A stored record is `⟨key, value, timestamp⟩` with `value : String`
  (the service serializes non-string values with `JSON.stringify` before
  writing, and `JSON.parse`s on read, falling back to the raw string).
* The backing object store (`keyValueStore`, keyed by `key`) is a list of
  records kept in ascending key order, as the backing engine keys records
  by `key`; `put` overwrites in place, `delete` removes by key.
* The platform JSON primitives (`JSON.stringify` / `JSON.parse`) are not
  part of the repository; they enter the model as a `JsonCodec` parameter,
  and theorems that depend on JSON behaviour take the needed codec facts
  (round-trip at the written value, or parse failure at a given string)
  as explicit hypotheses.  A small executable codec `demoJ` covering a
  fragment of JSON instantiates the parameter in concrete witnesses.
* Each asynchronous request against the backing engine can succeed or
  fail; failure is injected through explicit error oracles
  (`Option DBErr` for a single request, `Nat → Option DBErr` indexed by
  request issue order for batch operations).  An operation returns its
  settled outcome (`Except DBErr _`) together with the resulting store
  state, making "which writes were applied when the operation failed"
  directly observable.
* `localStorage` (the legacy migration source) is a list of key/value
  string pairs, enumerable by position, looked up by key.
-/

set_option autoImplicit false

namespace FUXA

/-- JSON-like runtime values: the values a caller may hand to `setItem` /
`setItems` and receive back from `getItem`.  Numbers are modelled as
integers. -/
inductive JVal where
  | null
  | bool (b : Bool)
  | num (n : Int)
  | str (s : String)
  | arr (elems : List JVal)
  | obj (fields : List (String × JVal))

/-- `typeof value === 'string'` test used by `setItem` / `setItems`. -/
def JVal.isStr : JVal → Bool
  | .str _ => true
  | _ => false

/-- The platform JSON primitives, abstracted: `stringify` serializes a
value, `parse` attempts to read a value back from a string (`none` models
a thrown `SyntaxError`, which the service catches). -/
structure JsonCodec where
  stringify : JVal → String
  toVal : String → Option JVal

/-- A persisted record: the `{key, value, timestamp}` object the service
puts into the object store. -/
structure Rec where
  key : String
  value : String
  timestamp : Nat
deriving DecidableEq

/-- The object store: records in ascending key order, at most one per key. -/
abbrev Store := List Rec

/-- An error reported by a failed backing-store request (`request.error`). -/
abbrev DBErr := String

/-- `store.get(key)`: the record stored under `key`, if any. -/
def findRec (s : Store) (k : String) : Option Rec :=
  s.find? (fun r => r.key == k)

/-- `store.put(record)`: insert the record at its key position,
overwriting an existing record with the same key. -/
def putRec : Store → Rec → Store
  | [], r => [r]
  | c :: cs, r =>
    if r.key = c.key then r :: cs
    else if r.key < c.key then r :: c :: cs
    else c :: putRec cs r

/-- `store.delete(key)`: remove the record stored under `key` (no-op when
absent). -/
def deleteRec (s : Store) (k : String) : Store :=
  s.filter (fun r => r.key != k)

/-- The value string the service writes:
`typeof value === 'string' ? value : JSON.stringify(value)`. -/
def serialize (J : JsonCodec) (v : JVal) : String :=
  match v with
  | .str s => s
  | _ => J.stringify v

/-- The record `{key, value: serialize(value), timestamp: Date.now()}`
built by `setItem` / `setItems` (`now` stands for `Date.now()`). -/
def mkRec (J : JsonCodec) (now : Nat) (k : String) (v : JVal) : Rec :=
  ⟨k, serialize J v, now⟩

/-- Read-side decoding: try `JSON.parse(raw)`, and on failure return the
raw string (`getItem`'s try/catch). -/
def decode (J : JsonCodec) (raw : String) : JVal :=
  match J.toVal raw with
  | some p => p
  | none => .str raw

/-- `setItem(key, value)`: one `put` request; `err` is the request's
outcome oracle.  Returns the settled promise and the store afterwards
(unchanged when the request failed). -/
def setItem (J : JsonCodec) (err : Option DBErr) (now : Nat) (k : String) (v : JVal)
    (s : Store) : Except DBErr Bool × Store :=
  match err with
  | some e => (.error e, s)
  | none => (.ok true, putRec s (mkRec J now k v))

/-- The value `getItem(key)` resolves with when its request succeeds:
`null` when no record exists, otherwise the JSON parse of the stored
string, or the raw string when parsing fails. -/
def getItemValue (J : JsonCodec) (s : Store) (k : String) : JVal :=
  match findRec s k with
  | some r => decode J r.value
  | none => .null

/-- `getItem(key)`: one `get` request; rejects exactly when the backing
request errors, otherwise resolves with `getItemValue`. -/
def getItem (J : JsonCodec) (err : Option DBErr) (s : Store) (k : String) :
    Except DBErr JVal :=
  match err with
  | some e => .error e
  | none => .ok (getItemValue J s k)

/-- `getAllKeys()`: the keys of all stored records, in store order. -/
def getAllKeys (s : Store) : List String :=
  s.map Rec.key

/-- `store.count(IDBKeyRange.only(key))`: how many records have exactly
this key. -/
def countOnly (s : Store) (k : String) : Nat :=
  s.countP (fun r => r.key == k)

/-- `hasItem(key)`: `count(IDBKeyRange.only(key)) > 0`. -/
def hasItem (s : Store) (k : String) : Bool :=
  decide (countOnly s k > 0)

/-- `getCount()`: `store.count()`, the number of stored records. -/
def getCount (s : Store) : Nat :=
  s.length

/-- `getKeysByPrefix(prefix)`: fetch all keys, then push those that
start with the prefix (the `forEach` / `push` loop of the source). -/
def getKeysByPrefix (s : Store) (p : String) : List String :=
  (getAllKeys s).foldl (fun acc k => if k.startsWith p then acc.concat k else acc) []

/-- `setItems(items)` loop: issue one `put` per item in order inside one
transaction; `failAt i` is the outcome oracle of the `i`-th request.  The
first failing request rejects the whole operation with its error; writes
applied before it remain applied. -/
def setItemsGo (J : JsonCodec) (failAt : Nat → Option DBErr) (now : Nat) :
    List (String × JVal) → Nat → Store → Except DBErr Bool × Store
  | [], _, s => (.ok true, s)
  | (k, v) :: rest, i, s =>
    match failAt i with
    | some e => (.error e, s)
    | none => setItemsGo J failAt now rest (i + 1) (putRec s (mkRec J now k v))

/-- `setItems(items)`: batch write; empty input resolves `true` without
issuing any request. -/
def setItems (J : JsonCodec) (failAt : Nat → Option DBErr) (now : Nat)
    (items : List (String × JVal)) (s : Store) : Except DBErr Bool × Store :=
  setItemsGo J failAt now items 0 s

/-- `removeItems(keys)` loop: one `delete` per key, same first-error
semantics as `setItemsGo`. -/
def removeItemsGo (failAt : Nat → Option DBErr) :
    List String → Nat → Store → Except DBErr Bool × Store
  | [], _, s => (.ok true, s)
  | k :: rest, i, s =>
    match failAt i with
    | some e => (.error e, s)
    | none => removeItemsGo failAt rest (i + 1) (deleteRec s k)

/-- `removeItems(keys)`: batch delete; empty input resolves `true`
without issuing any request. -/
def removeItems (failAt : Nat → Option DBErr) (keys : List String) (s : Store) :
    Except DBErr Bool × Store :=
  removeItemsGo failAt keys 0 s

/-- The legacy flat store (`localStorage`): key/value string pairs,
enumerable by position. -/
abbrev LocalStorage := List (String × String)

/-- `localStorage.key(i)`: the key at position `i`, if in range. -/
def lsKey (ls : LocalStorage) (i : Nat) : Option String :=
  (ls.get? i).map Prod.fst

/-- `localStorage.getItem(key)`: the value of the first entry with this
key (`none` models `null`). -/
def lsGetItem (ls : LocalStorage) (k : String) : Option String :=
  (ls.find? (fun p => p.1 == k)).map Prod.snd

/-- `localStorage.removeItem(key)`. -/
def lsRemoveItem (ls : LocalStorage) (k : String) : LocalStorage :=
  ls.filter (fun p => p.1 != k)

/-- The `itemsToMigrate` collection loop of `migrateFromLocalStorage`
when an explicit non-empty key list was supplied: for each requested key,
look it up in the legacy store; when present, push the JSON parse of the
raw value, or the raw string when parsing fails. -/
def collectKeys (J : JsonCodec) (ls : LocalStorage) (ks : List String) :
    List (String × JVal) :=
  ks.foldl (fun acc k =>
    match lsGetItem ls k with
    | some raw => acc.concat (k, decode J raw)
    | none => acc) []

/-- The `itemsToMigrate` collection loop of `migrateFromLocalStorage`
when no key list was supplied: iterate positions `0 ≤ i < length`,
fetch `key(i)`, look the key up, and push with the same decoding. -/
def collectAll (J : JsonCodec) (ls : LocalStorage) : List (String × JVal) :=
  (List.range ls.length).foldl (fun acc i =>
    match lsKey ls i with
    | some k =>
      match lsGetItem ls k with
      | some raw => acc.concat (k, decode J raw)
      | none => acc
    | none => acc) []

/-- The `itemsToMigrate` list: the source guards on
`keys && keys.length > 0`, so an omitted *or empty* key list selects the
whole legacy store. -/
def itemsFor (J : JsonCodec) (ls : LocalStorage) (keys : Option (List String)) :
    List (String × JVal) :=
  match keys with
  | some ks => if ks.length > 0 then collectKeys J ls ks else collectAll J ls
  | none => collectAll J ls

/-- `migrateFromLocalStorage(keys?, clearLocalStorage)`: collect the
entries to migrate; when none, resolve `0` without touching the
destination; otherwise run `setItems` and, only on its success and when
`clearSource` is set, remove the migrated keys from the legacy store
(requested keys one by one, or `localStorage.clear()` when the whole
store was migrated).  A `setItems` failure rejects with its error and
leaves the legacy store untouched. -/
def migrateFromLocalStorage (J : JsonCodec) (failAt : Nat → Option DBErr) (now : Nat)
    (keys : Option (List String)) (clearSource : Bool) (s : Store) (ls : LocalStorage) :
    Except DBErr Nat × Store × LocalStorage :=
  let itemsToMigrate := itemsFor J ls keys
  if itemsToMigrate.length = 0 then (.ok 0, s, ls)
  else
    match setItems J failAt now itemsToMigrate s with
    | (.ok _, s2) =>
      (.ok itemsToMigrate.length, s2,
        if clearSource then
          match keys with
          | some ks => if ks.length > 0 then ks.foldl lsRemoveItem ls else []
          | none => []
        else ls)
    | (.error e, s2) => (.error e, s2, ls)

/-- `autoMigrateFromLocalStorage()`: check the destination record count
(`countErr` is that request's outcome oracle); any data there, or a count
error, resolves `false`.  Then check the legacy store (`lsErr` models the
`try`/`catch` around the `localStorage` access); an error or an empty
legacy store resolves `false`.  Otherwise run a full migration with
`clearSource = false`, resolving whether at least one entry was migrated,
and `false` when the migration rejected.  Every handler resolves: the
operation never rejects. -/
def autoMigrateFromLocalStorage (J : JsonCodec) (countErr lsErr : Option DBErr)
    (failAt : Nat → Option DBErr) (now : Nat) (s : Store) (ls : LocalStorage) :
    Bool × Store × LocalStorage :=
  match countErr with
  | some _ => (false, s, ls)
  | none =>
    if getCount s > 0 then (false, s, ls)
    else
      match lsErr with
      | some _ => (false, s, ls)
      | none =>
        if ls.length = 0 then (false, s, ls)
        else
          match migrateFromLocalStorage J failAt now none false s ls with
          | (.ok n, s2, ls2) => (decide (n > 0), s2, ls2)
          | (.error _, s2, ls2) => (false, s2, ls2)

/-- Connection-setup state: whether `this.db` has been assigned, and how
many `indexedDB.open` attempts have been issued so far. -/
structure InitState where
  db : Bool
  opens : Nat
deriving DecidableEq

/-- Cooperative-async events against the setup state: `ensure` is an
operation starting and running `ensureDB()` up to its suspension point
(`initDB()` issues a fresh `indexedDB.open` whenever `this.db` is still
unset); `complete` is a pending open request firing `onsuccess`, which
assigns `this.db`. -/
inductive InitEv where
  | ensure
  | complete
deriving DecidableEq

/-- One event against the setup state. -/
def initStep (st : InitState) (e : InitEv) : InitState :=
  match e with
  | .ensure => if st.db then st else ⟨st.db, st.opens + 1⟩
  | .complete => if st.opens > 0 then ⟨true, st.opens⟩ else st

/-- A sequence of interleaved events. -/
def initRun (st : InitState) (evs : List InitEv) : InitState :=
  evs.foldl initStep st

/-- The state right after the constructor, which eagerly calls
`this.initDB()`: no `this.db` yet, one open attempt already issued. -/
def constructedState : InitState :=
  initStep ⟨false, 0⟩ .ensure

/-- Executable codec covering a fragment of JSON (`null`, booleans,
decimal integers), used to instantiate the `JsonCodec` parameter on
concrete witness inputs.  Strings it cannot read map to `none`, as
`JSON.parse` throws on them. -/
def digitsToNat : List Char → Nat → Nat
  | [], acc => acc
  | c :: cs, acc => digitsToNat cs (acc * 10 + (c.toNat - 48))

/-- Reading side of the demo codec. -/
def demoToVal (s : String) : Option JVal :=
  if s = "null" then some JVal.null
  else if s = "true" then some (JVal.bool true)
  else if s = "false" then some (JVal.bool false)
  else if s.data ≠ [] ∧ s.data.all Char.isDigit then
    some (JVal.num (digitsToNat s.data 0))
  else none

/-- Writing side of the demo codec. -/
def demoStringify : JVal → String
  | JVal.null => "null"
  | JVal.bool true => "true"
  | JVal.bool false => "false"
  | JVal.num n => toString n
  | JVal.str s => "\"" ++ s ++ "\""
  | JVal.arr _ => "[]"
  | JVal.obj _ => "\x7b\x7d"

/-- The demo codec. -/
def demoJ : JsonCodec :=
  ⟨demoStringify, demoToVal⟩

/-- Oracle under which every backing-store request succeeds. -/
def noFail : Nat → Option DBErr := fun _ => none

/-- Oracle under which every backing-store request fails with "boom". -/
def failAll : Nat → Option DBErr := fun _ => some "boom"

/-- The store obtained by applying the `put` of every listed item in
order (the state `setItems` reaches when no request fails). -/
def applyPuts (J : JsonCodec) (now : Nat) (items : List (String × JVal)) (s : Store) : Store :=
  items.foldl (fun st it => putRec st (mkRec J now it.1 it.2)) s

/-! ## Helper lemmas -/

theorem findRec_putRec (s : Store) (r : Rec) : findRec (putRec s r) r.key = some r := by
  induction s with
  | nil => simp [putRec, findRec, List.find?]
  | cons c cs ih =>
    by_cases h1 : r.key = c.key
    · simp [putRec, h1, findRec, List.find?]
    · by_cases h2 : r.key < c.key
      · simp [putRec, h1, h2, findRec, List.find?]
      · have hc : (c.key == r.key) = false := by
          simp only [beq_eq_false_iff_ne]
          exact fun h => h1 h.symm
        simp only [putRec, if_neg h1, if_neg h2]
        simpa [findRec, List.find?_cons, hc] using ih

theorem foldl_concat_filter (p : String → Bool) (l acc : List String) :
    l.foldl (fun a k => if p k then a.concat k else a) acc = acc ++ l.filter p := by
  induction l generalizing acc with
  | nil => simp
  | cons x xs ih =>
    rw [List.foldl_cons]
    by_cases h : p x
    · rw [if_pos h, ih]
      simp [h]
    · rw [if_neg h, ih]
      simp [h]

theorem setItemsGo_ok_iff (J : JsonCodec) (failAt : Nat → Option DBErr) (now : Nat)
    (items : List (String × JVal)) (i : Nat) (s : Store) :
    (setItemsGo J failAt now items i s).1 = .ok true ↔
      ∀ j, j < items.length → failAt (i + j) = none := by
  induction items generalizing i s with
  | nil => simp [setItemsGo]
  | cons it rest ih =>
    obtain ⟨k, v⟩ := it
    cases hf : failAt i with
    | some e =>
      simp only [setItemsGo, hf]
      constructor
      · intro h
        simp at h
      · intro h
        have h0 := h 0 (by simp)
        rw [Nat.add_zero, hf] at h0
        simp at h0
    | none =>
      simp only [setItemsGo, hf]
      rw [ih]
      constructor
      · intro h j hj
        cases j with
        | zero =>
          rw [Nat.add_zero, hf]
        | succ j2 =>
          have := h j2 (by simp at hj; omega)
          rw [show i + (j2 + 1) = i + 1 + j2 by omega]
          exact this
      · intro h j hj
        have := h (j + 1) (by simp; omega)
        rw [show i + 1 + j = i + (j + 1) by omega]
        exact this

theorem setItemsGo_ok (J : JsonCodec) (failAt : Nat → Option DBErr) (now : Nat)
    (items : List (String × JVal)) (i : Nat) (s : Store)
    (h : ∀ j, j < items.length → failAt (i + j) = none) :
    setItemsGo J failAt now items i s = (.ok true, applyPuts J now items s) := by
  induction items generalizing i s with
  | nil => simp [setItemsGo, applyPuts]
  | cons it rest ih =>
    obtain ⟨k, v⟩ := it
    have h0 : failAt i = none := by
      have := h 0 (by simp)
      rwa [Nat.add_zero] at this
    simp only [setItemsGo, h0]
    rw [ih (i + 1) (putRec s (mkRec J now k v))
      (fun j hj => by
        rw [show i + 1 + j = i + (j + 1) by omega]
        exact h (j + 1) (by simp; omega))]
    simp [applyPuts]

theorem setItemsGo_error (J : JsonCodec) (failAt : Nat → Option DBErr) (now : Nat) :
    ∀ (items : List (String × JVal)) (j i : Nat) (e : DBErr) (s : Store),
    (∀ j2, j2 < j → failAt (i + j2) = none) →
    failAt (i + j) = some e → j < items.length →
    setItemsGo J failAt now items i s = (.error e, applyPuts J now (items.take j) s) := by
  intro items
  induction items with
  | nil =>
    intro j i e s _ _ hlt
    simp at hlt
  | cons it rest ih =>
    intro j i e s hnone hj hlt
    obtain ⟨k, v⟩ := it
    cases j with
    | zero =>
      rw [Nat.add_zero] at hj
      simp [setItemsGo, hj, applyPuts]
    | succ j2 =>
      have h0 : failAt i = none := by
        have := hnone 0 (by omega)
        rwa [Nat.add_zero] at this
      simp only [setItemsGo, h0]
      rw [ih j2 (i + 1) e (putRec s (mkRec J now k v))
        (fun j3 hj3 => by
          rw [show i + 1 + j3 = i + (j3 + 1) by omega]
          exact hnone (j3 + 1) (by omega))
        (by rw [show i + 1 + j2 = i + (j2 + 1) by omega]; exact hj)
        (by simp at hlt; omega)]
      simp [applyPuts]

theorem collectKeysAux (J : JsonCodec) (ls : LocalStorage) (ks : List String)
    (acc : List (String × JVal)) :
    ((ks.foldl (fun acc k =>
      match lsGetItem ls k with
      | some raw => acc.concat (k, decode J raw)
      | none => acc) acc).map Prod.fst)
    = acc.map Prod.fst ++ ks.filter (fun k => (lsGetItem ls k).isSome) := by
  induction ks generalizing acc with
  | nil => simp
  | cons k ks ih =>
    rw [List.foldl_cons]
    cases h : lsGetItem ls k with
    | some raw =>
      rw [ih]
      simp [h]
    | none =>
      rw [ih]
      simp [h]

/-- The keys migrated by an explicit key list are exactly the requested
keys present in the legacy store, in request order. -/
theorem collectKeys_keys (J : JsonCodec) (ls : LocalStorage) (ks : List String) :
    (collectKeys J ls ks).map Prod.fst = ks.filter (fun k => (lsGetItem ls k).isSome) := by
  have h := collectKeysAux J ls ks []
  simp only [List.map_nil, List.nil_append] at h
  exact h

theorem lsGetItem_isSome_of_mem (ls : LocalStorage) (pr : String × String)
    (hmem : pr ∈ ls) : (lsGetItem ls pr.1).isSome := by
  have h : (List.find? (fun p => p.1 == pr.1) ls).isSome := by
    rw [List.find?_isSome]
    exact ⟨pr, hmem, by simp⟩
  obtain ⟨q, hq⟩ := Option.isSome_iff_exists.mp h
  rw [lsGetItem, hq]
  rfl

theorem collectAllAux (J : JsonCodec) (ls : LocalStorage) :
    ∀ m, m ≤ ls.length → ∀ acc : List (String × JVal),
    (((List.range m).foldl (fun acc i =>
      match lsKey ls i with
      | some k =>
        match lsGetItem ls k with
        | some raw => acc.concat (k, decode J raw)
        | none => acc
      | none => acc) acc).map Prod.fst)
    = acc.map Prod.fst ++ (ls.take m).map Prod.fst := by
  intro m
  induction m with
  | zero =>
    intro _ acc
    simp
  | succ m ih =>
    intro hm acc
    have hmlt : m < ls.length := by omega
    rw [List.range_succ, List.foldl_append, List.foldl_cons, List.foldl_nil]
    have hkey : lsKey ls m = some (ls.get ⟨m, hmlt⟩).1 := by
      rw [lsKey, List.get?_eq_get hmlt]
      rfl
    have hval : (lsGetItem ls (ls.get ⟨m, hmlt⟩).1).isSome :=
      lsGetItem_isSome_of_mem ls (ls.get ⟨m, hmlt⟩) (List.get_mem ls m hmlt)
    obtain ⟨raw, hraw⟩ := Option.isSome_iff_exists.mp hval
    simp only [hkey, hraw]
    have htake : (ls.take (m + 1)).map Prod.fst
        = (ls.take m).map Prod.fst ++ [(ls.get ⟨m, hmlt⟩).1] := by
      rw [List.take_succ]
      have hg : ls[m]? = some (ls.get ⟨m, hmlt⟩) := by
        rw [← List.get?_eq_getElem?, List.get?_eq_get hmlt]
      rw [hg]
      simp only [Option.toList_some, List.map_append, List.map_cons, List.map_nil]
    rw [htake, List.concat_eq_append, List.map_append, ih (by omega) acc]
    simp

/-- With no explicit key list, the keys migrated are exactly every key of
the legacy store, in enumeration order. -/
theorem collectAll_keys (J : JsonCodec) (ls : LocalStorage) :
    (collectAll J ls).map Prod.fst = ls.map Prod.fst := by
  have := collectAllAux J ls ls.length (Nat.le_refl _) []
  rw [List.take_length] at this
  simpa [collectAll] using this

/-! ## Claim theorems -/

/-- Claim C1: `getItem(k)` after `setItem(k, v)` returns a value
deep-equal to `v` whenever `v` is not a plain string (given that the
JSON codec round-trips at `v`), and returns `v` unchanged whenever `v`
is a string that is not valid JSON (the parse of `v` fails). -/
theorem C1_setItem_getItem_roundtrip (J : JsonCodec) (now : Nat) (s : Store) (k : String) :
    (∀ v : JVal, v.isStr = false → J.toVal (J.stringify v) = some v →
      getItemValue J (setItem J none now k v s).2 k = v)
    ∧ (∀ str : String, J.toVal str = none →
      getItemValue J (setItem J none now k (JVal.str str) s).2 k = JVal.str str) := by
  constructor
  · intro v hv hround
    have hser : serialize J v = J.stringify v := by
      cases v <;> simp [serialize]
      simp [JVal.isStr] at hv
    have hfind : findRec (putRec s (mkRec J now k v)) k = some (mkRec J now k v) := by
      simpa [mkRec] using findRec_putRec s (mkRec J now k v)
    show getItemValue J (putRec s (mkRec J now k v)) k = v
    simp only [getItemValue]
    rw [hfind]
    show decode J (serialize J v) = v
    simp only [decode]
    rw [hser, hround]
  · intro str hp
    have hfind : findRec (putRec s (mkRec J now k (JVal.str str))) k
        = some (mkRec J now k (JVal.str str)) := by
      simpa [mkRec] using findRec_putRec s (mkRec J now k (JVal.str str))
    show getItemValue J (putRec s (mkRec J now k (JVal.str str))) k = JVal.str str
    simp only [getItemValue]
    rw [hfind]
    show decode J str = JVal.str str
    simp only [decode]
    rw [hp]

/-- Witness for C1 at concrete inputs: the boolean `true` round-trips,
and the non-JSON string "hello" comes back unchanged. -/
theorem C1_witness :
    getItemValue demoJ (setItem demoJ none 7 "k" (JVal.bool true) []).2 "k" = JVal.bool true
    ∧ getItemValue demoJ (setItem demoJ none 7 "k" (JVal.str "hello") []).2 "k"
      = JVal.str "hello" :=
  ⟨(C1_setItem_getItem_roundtrip demoJ 7 [] "k").1 (JVal.bool true) rfl rfl,
   (C1_setItem_getItem_roundtrip demoJ 7 [] "k").2 "hello" rfl⟩

/-- Claim C7: when its backing request succeeds, `getItem` resolves to
`null` for an absent key (absence is not an error), to the JSON parse of
the stored value string when it parses, and to the raw stored string
when parsing fails; a parse failure never produces an error. -/
theorem C7_getItem_decoding (J : JsonCodec) (s : Store) (k : String) :
    (findRec s k = none → getItem J none s k = .ok .null)
    ∧ (∀ r, findRec s k = some r → J.toVal r.value = none →
        getItem J none s k = .ok (.str r.value))
    ∧ (∀ r p, findRec s k = some r → J.toVal r.value = some p →
        getItem J none s k = .ok p)
    ∧ (∃ v, getItem J none s k = .ok v) := by
  refine ⟨?_, ?_, ?_, ⟨getItemValue J s k, rfl⟩⟩
  · intro h
    simp [getItem, getItemValue, h]
  · intro r hr hp
    simp [getItem, getItemValue, hr, decode, hp]
  · intro r p hr hp
    simp [getItem, getItemValue, hr, decode, hp]

/-- Witness for C7 at concrete inputs: a store holding a non-JSON string
under "k" resolves to that raw string, and an absent key resolves to
null. -/
theorem C7_witness :
    getItem demoJ none [⟨"k", "hello", 0⟩] "k" = .ok (.str "hello")
    ∧ getItem demoJ none [] "missing" = .ok .null :=
  ⟨(C7_getItem_decoding demoJ [⟨"k", "hello", 0⟩] "k").2.1 ⟨"k", "hello", 0⟩ rfl rfl,
   (C7_getItem_decoding demoJ [] "missing").1 rfl⟩

/-- Claim C8: for every prefix string `p`, `getKeysByPrefix p` returns
exactly the subset of `getAllKeys` whose elements start with `p`,
scanning all keys and preserving their order. -/
theorem C8_getKeysByPrefix_filters_getAllKeys (s : Store) (p : String) :
    getKeysByPrefix s p = (getAllKeys s).filter (fun k => k.startsWith p) := by
  rw [getKeysByPrefix]
  simpa using foldl_concat_filter (fun k => k.startsWith p) (getAllKeys s) []

/-- Claim C9: a singleton batch write performs exactly the write of
`setItem`: same settled result, same store record, hence the same
subsequent `getItem` result. -/
theorem C9_setItems_singleton_refines_setItem (J : JsonCodec) (failAt : Nat → Option DBErr)
    (now : Nat) (k : String) (v : JVal) (s : Store) :
    setItems J failAt now [(k, v)] s = setItem J (failAt 0) now k v s
    ∧ getItemValue J (setItems J failAt now [(k, v)] s).2 k
      = getItemValue J (setItem J (failAt 0) now k v s).2 k := by
  have h : setItems J failAt now [(k, v)] s = setItem J (failAt 0) now k v s := by
    cases hf : failAt 0 <;> simp [setItems, setItemsGo, setItem, hf]
  exact ⟨h, by rw [h]⟩

/-- Claim C10: the read-only views agree in every state: `hasItem k` is
true iff `k` is an element of `getAllKeys`, and `getCount` equals the
length of `getAllKeys`. -/
theorem C10_readonly_views_agree (s : Store) (k : String) :
    (hasItem s k = true ↔ k ∈ getAllKeys s) ∧ getCount s = (getAllKeys s).length := by
  refine ⟨?_, by simp [getCount, getAllKeys]⟩
  simp [hasItem, countOnly, getAllKeys, List.countP_pos_iff, List.mem_map]

/-- Claim C4: `setItems` issues one write per item inside a single write
transaction and succeeds exactly when every individual write succeeds;
the first per-item failure rejects the whole operation with that error,
with the writes applied before the failing one still in place; and the
empty batch write and batch delete succeed without performing any write
or delete. -/
theorem C4_setItems_batch_semantics (J : JsonCodec) (failAt dAt : Nat → Option DBErr)
    (now : Nat) (items : List (String × JVal)) (s : Store) :
    ((setItems J failAt now items s).1 = .ok true ↔
      ∀ j, j < items.length → failAt j = none)
    ∧ ((∀ j, j < items.length → failAt j = none) →
      setItems J failAt now items s = (.ok true, applyPuts J now items s))
    ∧ (∀ j e, (∀ j2, j2 < j → failAt j2 = none) → failAt j = some e → j < items.length →
      setItems J failAt now items s = (.error e, applyPuts J now (items.take j) s))
    ∧ setItems J failAt now [] s = (.ok true, s)
    ∧ removeItems dAt [] s = (.ok true, s) := by
  refine ⟨?_, ?_, ?_, rfl, rfl⟩
  · simpa using setItemsGo_ok_iff J failAt now items 0 s
  · intro h
    exact setItemsGo_ok J failAt now items 0 s (by simpa using h)
  · intro j e hnone hj hlt
    exact setItemsGo_error J failAt now items j 0 e s (by simpa using hnone)
      (by simpa using hj) hlt

/-- Witness for C4: with the second of three writes failing, the batch
rejects with that error and the first write stays applied. -/
theorem C4_witness :
    setItems demoJ (fun i => if i = 1 then some "boom" else none) 5
        [("a", JVal.null), ("b", JVal.null), ("c", JVal.null)] []
      = (.error "boom", [⟨"a", "null", 5⟩]) :=
  (C4_setItems_batch_semantics demoJ (fun i => if i = 1 then some "boom" else none)
      noFail 5 [("a", JVal.null), ("b", JVal.null), ("c", JVal.null)] []).2.2.1 1 "boom"
    (fun j2 hj2 => by
      have h0 : j2 = 0 := by omega
      rw [h0]
      rfl)
    rfl (by decide)

/-- Claim C3: with `clearSource = true`, no key is removed from the
legacy store before the batch write succeeds: when the batch write
fails, the whole operation rejects with that error and the legacy store
is returned completely unchanged (and the empty short-circuit path also
leaves it unchanged). -/
theorem C3_migrate_clearSource_after_success (J : JsonCodec) (failAt : Nat → Option DBErr)
    (now : Nat) (keys : Option (List String)) (s : Store) (ls : LocalStorage) :
    (∀ e, (setItems J failAt now (itemsFor J ls keys) s).1 = .error e →
      migrateFromLocalStorage J failAt now keys true s ls
        = (.error e, (setItems J failAt now (itemsFor J ls keys) s).2, ls))
    ∧ (itemsFor J ls keys = [] →
      migrateFromLocalStorage J failAt now keys true s ls = (.ok 0, s, ls)) := by
  constructor
  · intro e herr
    have hne : ¬ (itemsFor J ls keys).length = 0 := by
      intro h0
      rw [List.length_eq_zero] at h0
      rw [h0] at herr
      simp [setItems, setItemsGo] at herr
    simp only [migrateFromLocalStorage]
    rw [if_neg hne]
    rcases hset : setItems J failAt now (itemsFor J ls keys) s with ⟨res, sM⟩
    rw [hset] at herr
    cases res with
    | ok b => simp at herr
    | error e2 =>
      have he : e2 = e := by simpa using herr
      subst he
      simp
  · intro hnil
    simp [migrateFromLocalStorage, hnil]

/-- Witness for C3: every write failing on a one-entry legacy store
leaves the legacy store untouched and rejects. -/
theorem C3_witness :
    migrateFromLocalStorage demoJ failAll 0 none true [] [("a", "x")]
      = (.error "boom", [], [("a", "x")]) :=
  (C3_migrate_clearSource_after_success demoJ failAll 0 none [] [("a", "x")]).1 "boom" rfl

/-- Claim C2: `autoMigrateFromLocalStorage` returns `false` and leaves
the destination store untouched whenever the destination count is
non-zero (even with a non-empty legacy store); returns `false` when both
stores are empty; and swallows every error — of the count check, of the
legacy-store check, and of the migration itself — into a `false` result
(the operation has no rejection path at all). -/
theorem C2_autoMigrate_guards (J : JsonCodec) (countErr lsErr : Option DBErr)
    (failAt : Nat → Option DBErr) (now : Nat) (s : Store) (ls : LocalStorage) :
    (countErr = none → getCount s > 0 →
      autoMigrateFromLocalStorage J countErr lsErr failAt now s ls = (false, s, ls))
    ∧ (countErr = none → lsErr = none → getCount s = 0 → ls = [] →
      autoMigrateFromLocalStorage J countErr lsErr failAt now s ls = (false, s, ls))
    ∧ (∀ e, countErr = some e →
      autoMigrateFromLocalStorage J countErr lsErr failAt now s ls = (false, s, ls))
    ∧ (∀ e, countErr = none → lsErr = some e → getCount s = 0 →
      autoMigrateFromLocalStorage J countErr lsErr failAt now s ls = (false, s, ls))
    ∧ (∀ e s2 ls2, countErr = none → lsErr = none → getCount s = 0 →
      migrateFromLocalStorage J failAt now none false s ls = (.error e, s2, ls2) →
      autoMigrateFromLocalStorage J countErr lsErr failAt now s ls = (false, s2, ls2)) := by
  refine ⟨?_, ?_, ?_, ?_, ?_⟩
  · intro hc hgt
    subst hc
    simp [autoMigrateFromLocalStorage, hgt]
  · intro hc hl hz hls
    subst hc
    subst hl
    subst hls
    simp [autoMigrateFromLocalStorage, hz]
  · intro e hc
    subst hc
    simp [autoMigrateFromLocalStorage]
  · intro e hc hl hz
    subst hc
    subst hl
    simp [autoMigrateFromLocalStorage, hz]
  · intro e s2 ls2 hc hl hz hmig
    subst hc
    subst hl
    have hlen : ¬ ls.length = 0 := by
      intro h0
      rw [List.length_eq_zero] at h0
      subst h0
      simp [migrateFromLocalStorage, itemsFor, collectAll] at hmig
    simp only [autoMigrateFromLocalStorage]
    rw [if_neg (by simp [hz]), if_neg hlen, hmig]

/-- Witness for C2: with one record already in the destination and a
non-empty legacy store, auto-migration reports `false` and writes
nothing; a failing count check also reports `false`. -/
theorem C2_witness :
    autoMigrateFromLocalStorage demoJ none none noFail 0 [⟨"k", "1", 0⟩] [("a", "x")]
      = (false, [⟨"k", "1", 0⟩], [("a", "x")])
    ∧ autoMigrateFromLocalStorage demoJ (some "boom") none noFail 0 [] [("a", "x")]
      = (false, [], [("a", "x")]) :=
  ⟨(C2_autoMigrate_guards demoJ none none noFail 0 [⟨"k", "1", 0⟩] [("a", "x")]).1
      rfl (by decide),
   (C2_autoMigrate_guards demoJ (some "boom") none noFail 0 [] [("a", "x")]).2.2.1
      "boom" rfl⟩

/-- Claim C5 as stated fails on the code: connection setup is *not*
triggered by the first operation (the constructor already issues an
open attempt), and concurrent callers do not share one setup —
`ensureDB` calls `initDB()`, which issues a fresh `indexedDB.open`,
whenever `this.db` is still unset.  Counterexample: with the
constructor's open still pending, a single operation causes a second
open attempt, refuting "no second connection-open attempt is ever
issued". -/
theorem C5_counterexample :
    ¬ (∀ evs : List InitEv, (initRun constructedState evs).opens ≤ 1) := by
  intro h
  exact absurd (h [InitEv.ensure]) (by decide)

/-- Amended C5: setup is triggered eagerly in the constructor (one open
attempt before any operation); once the connection is established,
operations trigger no further setup work at all; but until it completes
every arriving operation issues its own additional open attempt (`n`
operations before completion yield `n` extra opens). -/
theorem C5_init_amended :
    constructedState.opens = 1
    ∧ (∀ st : InitState, st.db = true → ∀ evs : List InitEv, initRun st evs = st)
    ∧ (∀ n : Nat,
        (initRun constructedState (List.replicate n InitEv.ensure)).opens = n + 1) := by
  refine ⟨rfl, ?_, ?_⟩
  · intro st hdb evs
    have hstep : ∀ e, initStep st e = st := by
      intro e
      cases e with
      | ensure => simp [initStep, hdb]
      | complete =>
        cases st with
        | mk db opens =>
          simp only [InitState.mk.injEq] at hdb ⊢
          subst hdb
          simp [initStep]
    induction evs with
    | nil => rfl
    | cons e evs ih =>
      show initRun (initStep st e) evs = st
      rw [hstep e]
      exact ih
  · have key : ∀ (n : Nat) (st : InitState), st.db = false →
        (initRun st (List.replicate n InitEv.ensure)).opens = st.opens + n := by
      intro n
      induction n with
      | zero =>
        intro st _
        simp [initRun]
      | succ m ih =>
        intro st hdb
        rw [List.replicate_succ]
        show (initRun (initStep st .ensure) (List.replicate m InitEv.ensure)).opens
          = st.opens + (m + 1)
        have hstep : initStep st .ensure = ⟨false, st.opens + 1⟩ := by
          cases st with
          | mk db opens =>
            simp only at hdb
            subst hdb
            simp [initStep]
        rw [hstep]
        have h2 := ih ⟨false, st.opens + 1⟩ rfl
        rw [show (⟨false, st.opens + 1⟩ : InitState).opens = st.opens + 1 from rfl] at h2
        omega
    intro n
    have h2 := key n constructedState rfl
    rw [show constructedState.opens = 1 from rfl] at h2
    omega

/-- Witness for C5: once the connection is open, an operation and a
spurious completion change nothing; and two operations arriving before
completion push the open-attempt count to three. -/
theorem C5_witness :
    initRun ⟨true, 1⟩ [InitEv.ensure, InitEv.complete] = (⟨true, 1⟩ : InitState)
    ∧ (initRun constructedState (List.replicate 2 InitEv.ensure)).opens = 3 :=
  ⟨C5_init_amended.2.1 ⟨true, 1⟩ rfl [InitEv.ensure, InitEv.complete],
   C5_init_amended.2.2 2⟩

/-- Claim C6 as stated fails on the code at `keys = []`: the source
guards on `keys && keys.length > 0`, so a *given but empty* key list
falls into the migrate-everything branch.  Counterexample: with
`keys = []` and a one-entry legacy store, migrating "exactly those keys"
would migrate nothing and return 0, but the call returns 1 (that entry
was migrated). -/
theorem C6_counterexample :
    ¬ ((migrateFromLocalStorage demoJ noFail 0 (some []) false [] [("a", "x")]).1
      = Except.ok 0) := by
  intro h
  exact Nat.one_ne_zero (Except.ok.inj h)

/-- Amended C6: if `keys` is given *and non-empty*, exactly the
requested keys present in the legacy store are migrated; if `keys` is
omitted *or empty*, every key of the legacy store is migrated; the
returned count is the number of entries migrated; and a zero count
short-circuits without performing any write on the destination store. -/
theorem C6_migrate_key_selection (J : JsonCodec) (failAt : Nat → Option DBErr)
    (now : Nat) (cs : Bool) (s : Store) (ls : LocalStorage) :
    (∀ ks : List String, ks ≠ [] → itemsFor J ls (some ks) = collectKeys J ls ks)
    ∧ (∀ ks : List String, (collectKeys J ls ks).map Prod.fst
        = ks.filter (fun k => (lsGetItem ls k).isSome))
    ∧ itemsFor J ls none = collectAll J ls
    ∧ (collectAll J ls).map Prod.fst = ls.map Prod.fst
    ∧ itemsFor J ls (some []) = collectAll J ls
    ∧ (∀ (keys : Option (List String)) (n : Nat) (s2 : Store) (ls2 : LocalStorage),
        migrateFromLocalStorage J failAt now keys cs s ls = (.ok n, s2, ls2) →
        n = (itemsFor J ls keys).length)
    ∧ (∀ keys : Option (List String), itemsFor J ls keys = [] →
        migrateFromLocalStorage J failAt now keys cs s ls = (.ok 0, s, ls)) := by
  refine ⟨?_, collectKeys_keys J ls, rfl, collectAll_keys J ls, rfl, ?_, ?_⟩
  · intro ks hne
    have hlen : ks.length > 0 := List.length_pos.mpr hne
    simp [itemsFor, hlen]
  · intro keys n s2 ls2 hmig
    by_cases h0 : (itemsFor J ls keys).length = 0
    · simp only [migrateFromLocalStorage] at hmig
      rw [if_pos h0] at hmig
      have hn : (0 : Nat) = n := by
        have := congrArg Prod.fst hmig
        simpa using this
      omega
    · simp only [migrateFromLocalStorage] at hmig
      rw [if_neg h0] at hmig
      rcases hset : setItems J failAt now (itemsFor J ls keys) s with ⟨res, sM⟩
      rw [hset] at hmig
      cases res with
      | ok b =>
        have := congrArg Prod.fst hmig
        simpa using this.symm
      | error e =>
        have := congrArg Prod.fst hmig
        simp at this
  · intro keys hnil
    simp [migrateFromLocalStorage, hnil]

/-- Witness for C6: requesting only the absent key "zz" migrates
nothing and leaves both stores untouched, and an explicit key list is
filtered down to exactly the keys present in the legacy store. -/
theorem C6_witness :
    migrateFromLocalStorage demoJ noFail 0 (some ["zz"]) false [] [("a", "x")]
      = (.ok 0, [], [("a", "x")])
    ∧ (collectKeys demoJ [("a", "x")] ["a", "zz"]).map Prod.fst
      = ["a", "zz"].filter (fun k => (lsGetItem [("a", "x")] k).isSome) :=
  ⟨(C6_migrate_key_selection demoJ noFail 0 false [] [("a", "x")]).2.2.2.2.2.2
      (some ["zz"]) rfl,
   (C6_migrate_key_selection demoJ noFail 0 false [] [("a", "x")]).2.1 ["a", "zz"]⟩

/-- Witness for C8 at a concrete two-record store. -/
theorem C8_witness :
    getKeysByPrefix [⟨"widgets/a", "1", 0⟩, ⟨"x", "2", 0⟩] "widgets/"
      = (getAllKeys [⟨"widgets/a", "1", 0⟩, ⟨"x", "2", 0⟩]).filter
          (fun k => k.startsWith "widgets/") :=
  C8_getKeysByPrefix_filters_getAllKeys [⟨"widgets/a", "1", 0⟩, ⟨"x", "2", 0⟩] "widgets/"

/-- Witness for C9 at a concrete singleton batch. -/
theorem C9_witness :
    setItems demoJ noFail 3 [("k", JVal.num 5)] []
      = setItem demoJ (noFail 0) 3 "k" (JVal.num 5) []
    ∧ getItemValue demoJ (setItems demoJ noFail 3 [("k", JVal.num 5)] []).2 "k"
      = getItemValue demoJ (setItem demoJ (noFail 0) 3 "k" (JVal.num 5) []).2 "k" :=
  C9_setItems_singleton_refines_setItem demoJ noFail 3 "k" (JVal.num 5) []

/-- Witness for C10 at a concrete one-record store. -/
theorem C10_witness :
    (hasItem [⟨"a", "1", 0⟩] "a" = true ↔ "a" ∈ getAllKeys [⟨"a", "1", 0⟩])
    ∧ getCount [⟨"a", "1", 0⟩] = (getAllKeys [⟨"a", "1", 0⟩]).length :=
  C10_readonly_views_agree [⟨"a", "1", 0⟩] "a"

end FUXA
